import Mathlib

/-!
Verification of the timekeeper synchronization engine
(`timekeeper_server.py`) against its natural-language specification.

The embedding models:
* Python values arriving in a Socket.IO `cmd` payload (`Value`), Python's
  `int(...)` conversion (`pyToInt`, raising = `none`) and truthiness
  (`pyBool`);
* the global timer dictionary `state` (`TimerState`), together with the
  module-level globals `_start_wall` and `_elapsed_at_pause`
  (`ServerState`); wall-clock instants are rationals;
* one iteration of the `timer_loop` body (`tick`) — the loop only runs
  while `running and not paused`, and `asyncio` task
  cancellation/creation is modelled by that same guard on `tick`;
* the `cmd` event handler (`cmd`), one helper per `elif` branch, returning
  `Except Unit` (`.error` = the handler raised) together with the list of
  emitted `state` events;
* reachability: interleavings of commands and engine ticks at
  nondecreasing wall-clock times starting from the module-load state.
-/

/- The kernel happily evaluates the Batteries rational-number operations,
but they are marked irreducible, which blocks the `decide` frontend; restore
reducibility for concrete evaluation. -/
attribute [local semireducible] Rat.add Rat.sub Rat.mul Rat.inv Rat.ofScientific

/-- A JSON-ish value as found in a command payload.  Containers are not
needed by any command field and are omitted. -/
inductive Value where
  | vInt (n : Int)
  | vNum (q : ℚ)
  | vStr (s : String)
  | vBool (b : Bool)
  | vNull
deriving DecidableEq

/-- Python `int(q)` on a real number: truncation toward zero. -/
def pyInt (q : ℚ) : Int := if 0 ≤ q then ⌊q⌋ else ⌈q⌉

/-- Decimal digit accumulator for `pyStrToInt`. -/
def parseDigits : List Char → Nat → Option Nat
  | [], acc => some acc
  | c :: cs, acc =>
    if c.isDigit then parseDigits cs (acc * 10 + (c.toNat - 48)) else none

/-- Python `int(s)` on a string: surrounding whitespace is ignored, then an
optional sign followed by at least one decimal digit; anything else raises
`ValueError` (`none`).  (Digit-group underscores are not modelled.) -/
def pyStrToInt (s : String) : Option Int :=
  let l := (s.toList.dropWhile Char.isWhitespace).reverse.dropWhile Char.isWhitespace
  match l.reverse with
  | [] => none
  | c :: cs =>
    if c = '-' then
      match cs with
      | [] => none
      | _ => (parseDigits cs 0).map fun n => -(n : Int)
    else if c = '+' then
      match cs with
      | [] => none
      | _ => (parseDigits cs 0).map fun n => (n : Int)
    else (parseDigits (c :: cs) 0).map fun n => (n : Int)

/-- Python `int(v)`: `none` means the conversion raises
(`ValueError`/`TypeError`). -/
def pyToInt : Value → Option Int
  | .vInt n => some n
  | .vNum q => some (pyInt q)
  | .vStr s => pyStrToInt s
  | .vBool b => some (if b then 1 else 0)
  | .vNull => none

/-- Python `bool(v)` truthiness. -/
def pyBool : Value → Bool
  | .vInt n => n ≠ 0
  | .vNum q => q ≠ 0
  | .vStr s => s ≠ ""
  | .vBool b => b
  | .vNull => false

/-- One entry of `state["bells"]`. -/
structure Bell where
  enabled : Bool
  at_sec : Int
  count : Int
  triggered : Bool
deriving DecidableEq

/-- The global `state` dictionary. -/
structure TimerState where
  running : Bool
  paused : Bool
  total_sec : Int
  remaining_sec : Int
  elapsed_sec : Int
  bells : List Bell
  over : Bool
deriving DecidableEq

/-- The initial `state["bells"]` literal. -/
def initialBells : List Bell :=
  [⟨true, 60, 1, false⟩, ⟨true, 120, 2, false⟩, ⟨true, 180, 3, false⟩]

/-- The `state` literal at module load. -/
def initialState : TimerState :=
  { running := false, paused := false, total_sec := 3 * 60,
    remaining_sec := 3 * 60, elapsed_sec := 0, bells := initialBells,
    over := false }

/-- The timer dictionary together with the globals `_start_wall` and
`_elapsed_at_pause`. -/
structure ServerState where
  state : TimerState
  startWall : ℚ
  elapsedAtPause : ℚ
deriving DecidableEq

/-- Server state at module load (`_start_wall = 0.0`,
`_elapsed_at_pause = 0.0`). -/
def initialServer : ServerState := ⟨initialState, 0, 0⟩

deriving instance DecidableEq for Except

/-- A `state` event emitted via `sio.emit`: the snapshot plus the optional
`fire_bells` list. -/
inductive Emit where
  | stateEv (s : TimerState) (fire : Option (List Int))
deriving DecidableEq

/-- `broadcast_state()`: emit the snapshot with no `fire_bells` key. -/
def broadcastEv (s : TimerState) : Emit := .stateEv s none

/-- The fields of the `cmd` payload dictionary that the handler reads;
`none` = key absent. -/
structure Payload where
  action : Option Value := none
  minutes : Option Value := none
  seconds : Option Value := none
  count : Option Value := none
  index : Option Value := none
  enabled : Option Value := none
deriving DecidableEq

/-- The bell scan of `timer_loop` (lines 116-121): mark every enabled,
untriggered bell whose `at_sec` is at most `int(elapsed)` and collect its
`count`, in list order.  Returns the updated bell list and the
`bells_fired` batch. -/
def fireScan : List Bell → Int → List Bell × List Int
  | [], _ => ([], [])
  | b :: bs, e =>
    let rest := fireScan bs e
    if b.enabled = true ∧ b.triggered = false ∧ b.at_sec ≤ e then
      ({ b with triggered := true } :: rest.1, b.count :: rest.2)
    else (b :: rest.1, rest.2)

/-- One iteration of the `timer_loop` body at wall-clock time `now`.  The
`while state["running"] and not state["paused"]` condition (and task
cancellation by `pause`/`reset`) is the guard: when it fails no tick
occurs. -/
def tick (σ : ServerState) (now : ℚ) : ServerState × List Emit :=
  if σ.state.running = true ∧ σ.state.paused = false then
    let elapsed : ℚ := σ.elapsedAtPause + (now - σ.startWall)
    let remaining : ℚ := (σ.state.total_sec : ℚ) - elapsed
    let s1 : TimerState :=
      { σ.state with
        elapsed_sec := pyInt elapsed,
        remaining_sec := pyInt remaining,
        over := decide (remaining < 0) }
    let scanned := fireScan s1.bells (pyInt elapsed)
    let s2 : TimerState := { s1 with bells := scanned.1 }
    (⟨s2, σ.startWall, σ.elapsedAtPause⟩,
     [Emit.stateEv s2 (if scanned.2.isEmpty then none else some scanned.2)])
  else (σ, [])

/-- `action == "start"` branch (lines 151-163). -/
def cmdStart (σ : ServerState) (now : ℚ) : ServerState × List Emit :=
  if σ.state.running = false then
    (⟨{ σ.state with running := true, paused := false },
      now, (σ.state.elapsed_sec : ℚ)⟩,
     [broadcastEv { σ.state with running := true, paused := false }])
  else if σ.state.paused = true then
    (⟨{ σ.state with paused := false }, now, (σ.state.elapsed_sec : ℚ)⟩,
     [broadcastEv { σ.state with paused := false }])
  else (σ, [broadcastEv σ.state])

/-- `action == "pause"` branch (lines 165-170). -/
def cmdPause (σ : ServerState) : ServerState × List Emit :=
  if σ.state.running = true ∧ σ.state.paused = false then
    (⟨{ σ.state with paused := true }, σ.startWall, (σ.state.elapsed_sec : ℚ)⟩,
     [broadcastEv { σ.state with paused := true }])
  else (σ, [broadcastEv σ.state])

/-- `action == "reset"` branch (lines 172-182). -/
def cmdReset (σ : ServerState) : ServerState × List Emit :=
  (⟨{ σ.state with
      running := false, paused := false, elapsed_sec := 0,
      remaining_sec := σ.state.total_sec, over := false,
      bells := σ.state.bells.map (fun b => { b with triggered := false }) },
    σ.startWall, 0⟩,
   [broadcastEv { σ.state with
      running := false, paused := false, elapsed_sec := 0,
      remaining_sec := σ.state.total_sec, over := false,
      bells := σ.state.bells.map (fun b => { b with triggered := false }) }])

/-- `action == "set_total"` branch (lines 184-196).  `int()` is applied to
the supplied fields (defaults `3`/`0` only for absent keys); a failed
conversion raises. -/
def cmdSetTotal (σ : ServerState) (p : Payload) :
    Except Unit (ServerState × List Emit) :=
  if σ.state.running = false ∨ σ.state.paused = true then
    match pyToInt (p.minutes.getD (.vInt 3)), pyToInt (p.seconds.getD (.vInt 0)) with
    | some mins, some secs =>
      if 0 < mins * 60 + secs then
        .ok (⟨{ σ.state with
                total_sec := mins * 60 + secs,
                remaining_sec := mins * 60 + secs,
                elapsed_sec := 0,
                bells := σ.state.bells.map (fun b => { b with triggered := false }) },
              σ.startWall, 0⟩,
             [broadcastEv { σ.state with
                total_sec := mins * 60 + secs,
                remaining_sec := mins * 60 + secs,
                elapsed_sec := 0,
                bells := σ.state.bells.map (fun b => { b with triggered := false }) }])
      else .ok (σ, [broadcastEv σ.state])
    | _, _ => .error ()
  else .ok (σ, [broadcastEv σ.state])

/-- In-place update of `state["bells"][idx]`. -/
def modifyBell : List Bell → Nat → (Bell → Bell) → List Bell
  | [], _, _ => []
  | b :: bs, 0, f => f b :: bs
  | b :: bs, n + 1, f => b :: modifyBell bs n f

/-- `action == "set_bell"` branch (lines 198-205). -/
def cmdSetBell (σ : ServerState) (p : Payload) :
    Except Unit (ServerState × List Emit) :=
  match pyToInt (p.index.getD (.vInt 0)) with
  | none => .error ()
  | some idx =>
    if 0 ≤ idx ∧ idx < (σ.state.bells.length : Int) then
      match pyToInt (p.minutes.getD (.vInt 0)), pyToInt (p.seconds.getD (.vInt 0)) with
      | some mins, some secs =>
        .ok (⟨{ σ.state with
                bells := modifyBell σ.state.bells idx.toNat
                  (fun b =>
                    { b with
                      at_sec := mins * 60 + secs,
                      enabled := pyBool (p.enabled.getD (.vBool true)),
                      triggered := false }) },
              σ.startWall, σ.elapsedAtPause⟩,
             [broadcastEv { σ.state with
                bells := modifyBell σ.state.bells idx.toNat
                  (fun b =>
                    { b with
                      at_sec := mins * 60 + secs,
                      enabled := pyBool (p.enabled.getD (.vBool true)),
                      triggered := false }) }])
      | _, _ => .error ()
    else .ok (σ, [broadcastEv σ.state])

/-- `action == "manual_bell"` branch (lines 207-210): emit the snapshot
with `fire_bells=[count]` and return before `broadcast_state()`. -/
def cmdManualBell (σ : ServerState) (p : Payload) :
    Except Unit (ServerState × List Emit) :=
  match pyToInt (p.count.getD (.vInt 1)) with
  | none => .error ()
  | some c => .ok (σ, [Emit.stateEv σ.state (some [c])])

/-- The `cmd` Socket.IO handler (lines 144-212): dispatch on
`data.get("action")`, then `await broadcast_state()` (every branch but
`manual_bell` appends the full broadcast). -/
def cmd (σ : ServerState) (now : ℚ) (p : Payload) :
    Except Unit (ServerState × List Emit) :=
  if p.action = some (.vStr "start") then .ok (cmdStart σ now)
  else if p.action = some (.vStr "pause") then .ok (cmdPause σ)
  else if p.action = some (.vStr "reset") then .ok (cmdReset σ)
  else if p.action = some (.vStr "set_total") then cmdSetTotal σ p
  else if p.action = some (.vStr "set_bell") then cmdSetBell σ p
  else if p.action = some (.vStr "manual_bell") then cmdManualBell σ p
  else .ok (σ, [broadcastEv σ.state])

/-- An atomic step of the system: a command arriving or an engine tick,
each stamped with the wall-clock time at which it runs. -/
inductive Step where
  | command (now : ℚ) (p : Payload)
  | tickAt (now : ℚ)
deriving DecidableEq

/-- The wall-clock time of a step. -/
def stepTime : Step → ℚ
  | .command t _ => t
  | .tickAt t => t

/-- Apply one step.  A raising command leaves the state unchanged (all
`int()` conversions in the handler happen before any mutation). -/
def applyStep (σ : ServerState) : Step → ServerState
  | .command t p =>
    match cmd σ t p with
    | .ok r => r.1
    | .error _ => σ
  | .tickAt t => (tick σ t).1

/-- Apply a sequence of steps. -/
def applyTrace (σ : ServerState) (tr : List Step) : ServerState :=
  tr.foldl applyStep σ

/-- Step times are nondecreasing and bounded below by `t` (wall-clock time
never runs backward). -/
def monoFrom (t : ℚ) : List Step → Bool
  | [] => true
  | s :: tr => decide (t ≤ stepTime s) && monoFrom (stepTime s) tr

/-- A server state is reachable when some time-monotone interleaving of
commands and ticks produces it from the module-load state. -/
def Reachable (σ : ServerState) : Prop :=
  ∃ tr : List Step, monoFrom 0 tr = true ∧ applyTrace initialServer tr = σ

/-- Apply a sequence of engine ticks at the given times. -/
def applyTicks (σ : ServerState) (ts : List ℚ) : ServerState :=
  ts.foldl (fun σ u => (tick σ u).1) σ

/-! ### Arithmetic facts about truncation toward zero -/

theorem pyInt_of_nonneg {q : ℚ} (h : 0 ≤ q) : pyInt q = ⌊q⌋ := if_pos h

theorem pyInt_of_neg {q : ℚ} (h : q < 0) : pyInt q = ⌈q⌉ :=
  if_neg (not_le.mpr h)

theorem pyInt_intCast (n : Int) : pyInt (n : ℚ) = n := by
  unfold pyInt
  split
  · exact Int.floor_intCast n
  · exact Int.ceil_intCast n

theorem pyInt_nonneg {q : ℚ} (h : 0 ≤ q) : 0 ≤ pyInt q := by
  rw [pyInt_of_nonneg h]
  exact Int.floor_nonneg.mpr h

theorem le_pyInt {n : Int} {q : ℚ} (h0 : 0 ≤ q) (h : (n : ℚ) ≤ q) :
    n ≤ pyInt q := by
  rw [pyInt_of_nonneg h0]
  exact Int.le_floor.mpr h

theorem pyInt_le {q : ℚ} (h : 0 ≤ q) : (pyInt q : ℚ) ≤ q := by
  rw [pyInt_of_nonneg h]
  exact Int.floor_le q

theorem lt_zero_of_pyInt_lt_zero {q : ℚ} (h : pyInt q < 0) : q < 0 := by
  by_contra hq
  push_neg at hq
  rw [pyInt_of_nonneg hq] at h
  exact absurd (Int.floor_nonneg.mpr hq) (not_le.mpr h)

/-- `int(T - e)` is within one of `T - int(e)` for `0 ≤ e`: equality when
`T - e < 0`, possibly one less when `T - e ≥ 0` and `e` is fractional. -/
theorem pyInt_sub_bounds (T : Int) (e : ℚ) (he : 0 ≤ e) :
    T - pyInt e - 1 ≤ pyInt ((T : ℚ) - e) ∧ pyInt ((T : ℚ) - e) ≤ T - pyInt e := by
  rw [pyInt_of_nonneg he]
  have hrw : ((T : ℚ) - e) = (-e) + (T : ℚ) := by ring
  rcases le_or_lt 0 ((T : ℚ) - e) with h | h
  · rw [pyInt_of_nonneg h, hrw, Int.floor_add_int, Int.floor_neg]
    have h1 := Int.ceil_le_floor_add_one e
    have h2 := Int.floor_le_ceil e
    omega
  · rw [pyInt_of_neg h, hrw, Int.ceil_add_int, Int.ceil_neg]
    omega

/-! ### Facts about the bell scan -/

/-- The updated bell list of a scan: each bell is marked independently. -/
theorem fireScan_fst (bs : List Bell) (e : Int) :
    (fireScan bs e).1 = bs.map fun b =>
      if b.enabled = true ∧ b.triggered = false ∧ b.at_sec ≤ e then
        { b with triggered := true }
      else b := by
  induction bs with
  | nil => rfl
  | cons b bs ih =>
    unfold fireScan
    split
    · next hc =>
      simp only [List.map_cons, if_pos hc]
      exact congrArg _ ih
    · next hc =>
      simp only [List.map_cons, if_neg hc]
      exact congrArg _ ih

/-- The `bells_fired` batch of a scan: the chime counts of the firing
bells, in list order. -/
theorem fireScan_snd (bs : List Bell) (e : Int) :
    (fireScan bs e).2 = (bs.filter fun b =>
      decide (b.enabled = true ∧ b.triggered = false ∧ b.at_sec ≤ e)).map
        Bell.count := by
  induction bs with
  | nil => rfl
  | cons b bs ih =>
    unfold fireScan
    split
    · next hc =>
      simp only [List.filter_cons, decide_eq_true_eq, if_pos hc]
      simpa using ih
    · next hc =>
      simp only [List.filter_cons, decide_eq_true_eq, if_neg hc]
      simpa using ih

/-- Membership in a `modifyBell` result. -/
theorem modifyBell_mem {bs : List Bell} {n : Nat} {f : Bell → Bell} {b : Bell}
    (h : b ∈ modifyBell bs n f) : b ∈ bs ∨ ∃ c ∈ bs, b = f c := by
  induction bs generalizing n with
  | nil => simp [modifyBell] at h
  | cons c cs ih =>
    cases n with
    | zero =>
      rcases (List.mem_cons.mp h) with rfl | h2
      · exact Or.inr ⟨c, List.mem_cons_self c cs, rfl⟩
      · exact Or.inl (List.mem_cons_of_mem c h2)
    | succ n =>
      rcases (List.mem_cons.mp h) with rfl | h2
      · exact Or.inl (List.mem_cons_self b cs)
      · rcases ih h2 with h3 | ⟨d, hd, rfl⟩
        · exact Or.inl (List.mem_cons_of_mem c h3)
        · exact Or.inr ⟨d, List.mem_cons_of_mem c hd, rfl⟩

/-! ### Characterizations of a tick -/

/-- A tick while running and not paused recomputes the derived fields from
the wall-clock anchor and runs the bell scan. -/
theorem tick_run {σ : ServerState} {now : ℚ} (hrun : σ.state.running = true)
    (hpau : σ.state.paused = false) :
    tick σ now = (⟨{ σ.state with
        elapsed_sec := pyInt (σ.elapsedAtPause + (now - σ.startWall)),
        remaining_sec :=
          pyInt ((σ.state.total_sec : ℚ) - (σ.elapsedAtPause + (now - σ.startWall))),
        over :=
          decide ((σ.state.total_sec : ℚ) - (σ.elapsedAtPause + (now - σ.startWall)) < 0),
        bells :=
          (fireScan σ.state.bells (pyInt (σ.elapsedAtPause + (now - σ.startWall)))).1 },
      σ.startWall, σ.elapsedAtPause⟩,
     [Emit.stateEv { σ.state with
        elapsed_sec := pyInt (σ.elapsedAtPause + (now - σ.startWall)),
        remaining_sec :=
          pyInt ((σ.state.total_sec : ℚ) - (σ.elapsedAtPause + (now - σ.startWall))),
        over :=
          decide ((σ.state.total_sec : ℚ) - (σ.elapsedAtPause + (now - σ.startWall)) < 0),
        bells :=
          (fireScan σ.state.bells (pyInt (σ.elapsedAtPause + (now - σ.startWall)))).1 }
       (if (fireScan σ.state.bells (pyInt (σ.elapsedAtPause + (now - σ.startWall)))).2.isEmpty
        then none
        else some (fireScan σ.state.bells (pyInt (σ.elapsedAtPause + (now - σ.startWall)))).2)]) := by
  unfold tick
  rw [if_pos ⟨hrun, hpau⟩]

/-- A tick while idle or paused does nothing. -/
theorem tick_stuck {σ : ServerState} {now : ℚ}
    (h : ¬(σ.state.running = true ∧ σ.state.paused = false)) :
    tick σ now = (σ, []) := by
  unfold tick
  rw [if_neg h]

/-! ### The inductive invariant -/

/-- The inductive invariant: facts that hold of the server state whenever
every step so far ran at a wall-clock time at most `t`. -/
structure StateInv (σ : ServerState) (t : ℚ) : Prop where
  total_pos : 0 < σ.state.total_sec
  elapsed_nonneg : 0 ≤ σ.state.elapsed_sec
  rem_lb : σ.state.total_sec - σ.state.elapsed_sec - 1 ≤ σ.state.remaining_sec
  rem_ub : σ.state.remaining_sec ≤ σ.state.total_sec - σ.state.elapsed_sec
  over_of_neg : σ.state.remaining_sec < 0 → σ.state.over = true
  bell_le : ∀ b ∈ σ.state.bells, b.triggered = true → b.at_sec ≤ σ.state.elapsed_sec
  eap_nonneg : 0 ≤ σ.elapsedAtPause
  clock : σ.state.running = true → σ.state.paused = false →
    (σ.state.elapsed_sec : ℚ) ≤ σ.elapsedAtPause + (t - σ.startWall)

theorem inv_mono {σ : ServerState} {t u : ℚ} (h : StateInv σ t) (htu : t ≤ u) :
    StateInv σ u := by
  refine ⟨h.total_pos, h.elapsed_nonneg, h.rem_lb, h.rem_ub, h.over_of_neg,
    h.bell_le, h.eap_nonneg, ?_⟩
  intro hr hp
  have h1 := h.clock hr hp
  linarith

theorem inv_init : StateInv initialServer 0 :=
  ⟨by decide, by decide, by decide, by decide, by decide, by decide,
   by decide, by decide⟩

/-- The engine tick preserves the invariant. -/
theorem inv_tick {σ : ServerState} {t now : ℚ} (h : StateInv σ t) (ht : t ≤ now) :
    StateInv (tick σ now).1 now := by
  by_cases hg : σ.state.running = true ∧ σ.state.paused = false
  case neg => rw [tick_stuck hg]; exact inv_mono h ht
  obtain ⟨hrun, hpau⟩ := hg
  rw [tick_run hrun hpau]
  dsimp only
  have hE : (σ.state.elapsed_sec : ℚ) ≤ σ.elapsedAtPause + (now - σ.startWall) := by
    have h1 := h.clock hrun hpau
    linarith
  have hE0 : ((0 : Int) : ℚ) ≤ (σ.state.elapsed_sec : ℚ) := by
    exact_mod_cast h.elapsed_nonneg
  have he0 : 0 ≤ σ.elapsedAtPause + (now - σ.startWall) := by
    push_cast at hE0
    linarith
  have hEfloor : σ.state.elapsed_sec ≤ pyInt (σ.elapsedAtPause + (now - σ.startWall)) :=
    le_pyInt he0 hE
  have hbounds := pyInt_sub_bounds σ.state.total_sec
    (σ.elapsedAtPause + (now - σ.startWall)) he0
  refine ⟨h.total_pos, ?_, ?_, ?_, ?_, ?_, h.eap_nonneg, ?_⟩
  · exact pyInt_nonneg he0
  · dsimp only
    have := hbounds.1
    omega
  · dsimp only
    have := hbounds.2
    omega
  · intro hneg
    have hq : (σ.state.total_sec : ℚ) - (σ.elapsedAtPause + (now - σ.startWall)) < 0 :=
      lt_zero_of_pyInt_lt_zero hneg
    simpa using hq
  · intro b hb htrig
    rw [fireScan_fst] at hb
    rcases List.mem_map.mp hb with ⟨c, hc, rfl⟩
    by_cases hcond : c.enabled = true ∧ c.triggered = false ∧
        c.at_sec ≤ pyInt (σ.elapsedAtPause + (now - σ.startWall))
    · rw [if_pos hcond]
      exact hcond.2.2
    · rw [if_neg hcond]
      rw [if_neg hcond] at htrig
      exact le_trans (h.bell_le c hc htrig) hEfloor
  · intro _ _
    have := pyInt_le he0
    linarith

/-! ### Command branches preserve the invariant -/

theorem inv_cmdStart {σ : ServerState} {t now : ℚ} (h : StateInv σ t)
    (ht : t ≤ now) : StateInv (cmdStart σ now).1 now := by
  unfold cmdStart
  split_ifs with h1 h2
  · refine ⟨h.total_pos, h.elapsed_nonneg, h.rem_lb, h.rem_ub, h.over_of_neg,
      h.bell_le, ?_, ?_⟩
    · show (0 : ℚ) ≤ (σ.state.elapsed_sec : ℚ)
      exact_mod_cast h.elapsed_nonneg
    · intro _ _
      show (σ.state.elapsed_sec : ℚ) ≤ (σ.state.elapsed_sec : ℚ) + (now - now)
      linarith
  · refine ⟨h.total_pos, h.elapsed_nonneg, h.rem_lb, h.rem_ub, h.over_of_neg,
      h.bell_le, ?_, ?_⟩
    · show (0 : ℚ) ≤ (σ.state.elapsed_sec : ℚ)
      exact_mod_cast h.elapsed_nonneg
    · intro _ _
      show (σ.state.elapsed_sec : ℚ) ≤ (σ.state.elapsed_sec : ℚ) + (now - now)
      linarith
  · exact inv_mono h ht

theorem inv_cmdPause {σ : ServerState} {t now : ℚ} (h : StateInv σ t)
    (ht : t ≤ now) : StateInv (cmdPause σ).1 now := by
  unfold cmdPause
  split_ifs with h1
  · refine ⟨h.total_pos, h.elapsed_nonneg, h.rem_lb, h.rem_ub, h.over_of_neg,
      h.bell_le, ?_, ?_⟩
    · show (0 : ℚ) ≤ (σ.state.elapsed_sec : ℚ)
      exact_mod_cast h.elapsed_nonneg
    · intro _ hp
      exact Bool.noConfusion (show true = false from hp)
  · exact inv_mono h ht

theorem inv_cmdReset {σ : ServerState} {t now : ℚ} (h : StateInv σ t) :
    StateInv (cmdReset σ).1 now := by
  unfold cmdReset
  refine ⟨h.total_pos, le_refl 0, ?_, ?_, ?_, ?_, le_refl 0, ?_⟩
  · show σ.state.total_sec - 0 - 1 ≤ σ.state.total_sec
    omega
  · show σ.state.total_sec ≤ σ.state.total_sec - 0
    omega
  · intro hneg
    have h2 : σ.state.total_sec < 0 := hneg
    have h3 := h.total_pos
    omega
  · intro b hb htrig
    rcases List.mem_map.mp hb with ⟨c, _, rfl⟩
    exact Bool.noConfusion (show false = true from htrig)
  · intro hr _
    exact Bool.noConfusion (show false = true from hr)

theorem inv_cmdSetTotal {σ : ServerState} {t now : ℚ} {p : Payload}
    {r : ServerState × List Emit} (hc : cmdSetTotal σ p = .ok r)
    (h : StateInv σ t) (ht : t ≤ now) : StateInv r.1 now := by
  unfold cmdSetTotal at hc
  split_ifs at hc with hg
  · split at hc
    · next mins secs _ _ =>
      split_ifs at hc with htot
      · injection hc with hc
        subst hc
        refine ⟨htot, le_refl 0, ?_, ?_, ?_, ?_, le_refl 0, ?_⟩
        · show mins * 60 + secs - 0 - 1 ≤ mins * 60 + secs
          omega
        · show mins * 60 + secs ≤ mins * 60 + secs - 0
          omega
        · intro hneg
          have h2 : mins * 60 + secs < 0 := hneg
          omega
        · intro b hb htrig
          rcases List.mem_map.mp hb with ⟨c, _, rfl⟩
          exact Bool.noConfusion (show false = true from htrig)
        · intro hr hp
          have hr2 : σ.state.running = true := hr
          have hp2 : σ.state.paused = false := hp
          rcases hg with hg | hg
          · rw [hg] at hr2
            exact Bool.noConfusion hr2
          · rw [hg] at hp2
            exact Bool.noConfusion hp2
      · injection hc with hc
        subst hc
        exact inv_mono h ht
    · next heq1 heq2 =>
      exact Except.noConfusion hc
  · injection hc with hc
    subst hc
    exact inv_mono h ht

theorem inv_cmdSetBell {σ : ServerState} {t now : ℚ} {p : Payload}
    {r : ServerState × List Emit} (hc : cmdSetBell σ p = .ok r)
    (h : StateInv σ t) (ht : t ≤ now) : StateInv r.1 now := by
  unfold cmdSetBell at hc
  split at hc
  · exact Except.noConfusion hc
  · next idx _ =>
    split_ifs at hc with hrange
    · split at hc
      · next mins secs _ _ =>
        injection hc with hc
        subst hc
        refine ⟨h.total_pos, h.elapsed_nonneg, h.rem_lb, h.rem_ub,
          h.over_of_neg, ?_, h.eap_nonneg, ?_⟩
        · intro b hb htrig
          rcases modifyBell_mem hb with hmem | ⟨c, _, rfl⟩
          · exact h.bell_le b hmem htrig
          · exact Bool.noConfusion (show false = true from htrig)
        · intro hr hp
          have h1 := h.clock hr hp
          show (σ.state.elapsed_sec : ℚ) ≤ σ.elapsedAtPause + (now - σ.startWall)
          linarith
      · next heq1 heq2 =>
        exact Except.noConfusion hc
    · injection hc with hc
      subst hc
      exact inv_mono h ht

theorem cmdManualBell_ok {σ : ServerState} {p : Payload}
    {r : ServerState × List Emit} (hc : cmdManualBell σ p = .ok r) :
    r.1 = σ := by
  unfold cmdManualBell at hc
  split at hc
  · exact Except.noConfusion hc
  · injection hc with hc
    subst hc
    rfl

/-- A command that returns normally preserves the invariant. -/
theorem cmd_ok_inv {σ : ServerState} {t now : ℚ} {p : Payload}
    {r : ServerState × List Emit} (hc : cmd σ now p = .ok r)
    (h : StateInv σ t) (ht : t ≤ now) : StateInv r.1 now := by
  unfold cmd at hc
  split_ifs at hc
  · injection hc with hc
    subst hc
    exact inv_cmdStart h ht
  · injection hc with hc
    subst hc
    exact inv_cmdPause h ht
  · injection hc with hc
    subst hc
    exact inv_cmdReset h
  · exact inv_cmdSetTotal hc h ht
  · exact inv_cmdSetBell hc h ht
  · rw [cmdManualBell_ok hc]
    exact inv_mono h ht
  · injection hc with hc
    subst hc
    exact inv_mono h ht

/-- Every step preserves the invariant. -/
theorem inv_step {σ : ServerState} {t : ℚ} {s : Step} (h : StateInv σ t)
    (ht : t ≤ stepTime s) : StateInv (applyStep σ s) (stepTime s) := by
  cases s with
  | command now p =>
    show StateInv (match cmd σ now p with
      | .ok r => r.1
      | .error _ => σ) now
    rcases hc : cmd σ now p with e | r
    · exact inv_mono h ht
    · exact cmd_ok_inv hc h ht
  | tickAt now => exact inv_tick h ht

/-- The invariant propagates along every time-monotone trace. -/
theorem inv_applyTrace :
    ∀ (tr : List Step) (σ : ServerState) (t : ℚ), StateInv σ t →
      monoFrom t tr = true → ∃ u, StateInv (applyTrace σ tr) u := by
  intro tr
  induction tr with
  | nil => exact fun σ t h _ => ⟨t, h⟩
  | cons s tr ih =>
    intro σ t h hm
    unfold monoFrom at hm
    rw [Bool.and_eq_true, decide_eq_true_eq] at hm
    exact ih (applyStep σ s) (stepTime s) (inv_step h hm.1) hm.2

/-- Every reachable server state satisfies the invariant at some time. -/
theorem reachable_inv {σ : ServerState} (h : Reachable σ) :
    ∃ u, StateInv σ u := by
  rcases h with ⟨tr, hm, rfl⟩
  exact inv_applyTrace tr initialServer 0 inv_init hm

/-! ### Concrete payloads and states used in scenarios -/

def pStart : Payload := { action := some (.vStr "start") }

def pPause : Payload := { action := some (.vStr "pause") }

/-- `cmd` dispatches a `"start"` payload to the start branch. -/
theorem cmd_pStart (σ : ServerState) (now : ℚ) :
    cmd σ now pStart = .ok (cmdStart σ now) := rfl

/-- The `"start"` branch on a paused run: resume with the wall-clock anchor
at `now` and the frozen offset equal to the stored `elapsed_sec`. -/
theorem cmdStart_resume {σ : ServerState} {now : ℚ}
    (hrun : σ.state.running = true) (hpau : σ.state.paused = true) :
    cmdStart σ now =
      (⟨{ σ.state with paused := false }, now, (σ.state.elapsed_sec : ℚ)⟩,
       [broadcastEv { σ.state with paused := false }]) := by
  unfold cmdStart
  rw [if_neg (by rw [hrun]; exact Bool.noConfusion), if_pos hpau]

/-- Ticks never change the run flags, the anchor, or the frozen offset. -/
theorem applyTicks_fixed (ts : List ℚ) (σ : ServerState) :
    (applyTicks σ ts).state.running = σ.state.running ∧
      (applyTicks σ ts).state.paused = σ.state.paused ∧
      (applyTicks σ ts).startWall = σ.startWall ∧
      (applyTicks σ ts).elapsedAtPause = σ.elapsedAtPause := by
  induction ts generalizing σ with
  | nil => exact ⟨rfl, rfl, rfl, rfl⟩
  | cons u ts ih =>
    have hstep : (tick σ u).1.state.running = σ.state.running ∧
        (tick σ u).1.state.paused = σ.state.paused ∧
        (tick σ u).1.startWall = σ.startWall ∧
        (tick σ u).1.elapsedAtPause = σ.elapsedAtPause := by
      by_cases hg : σ.state.running = true ∧ σ.state.paused = false
      · rw [tick_run hg.1 hg.2]
        exact ⟨rfl, rfl, rfl, rfl⟩
      · rw [tick_stuck hg]
        exact ⟨rfl, rfl, rfl, rfl⟩
    have h2 := ih ((tick σ u).1)
    exact ⟨h2.1.trans hstep.1, h2.2.1.trans hstep.2.1,
      h2.2.2.1.trans hstep.2.2.1, h2.2.2.2.trans hstep.2.2.2⟩

/-! ### Claim theorems -/

/-- Claim C1 (corrected).  The spec states the invariant
`remaining_sec = total_sec - elapsed_sec` for all reachable states.  The
loop body stores `int(elapsed)` and `int(total_sec - elapsed)`
independently, so a tick with fractional elapsed and positive remaining
stores `remaining_sec = total_sec - elapsed_sec - 1`.  What holds in every
reachable state is the two-sided bound
`total_sec - elapsed_sec - 1 ≤ remaining_sec ≤ total_sec - elapsed_sec`. -/
theorem C1_remaining_bounds (σ : ServerState) (h : Reachable σ) :
    σ.state.total_sec - σ.state.elapsed_sec - 1 ≤ σ.state.remaining_sec ∧
      σ.state.remaining_sec ≤ σ.state.total_sec - σ.state.elapsed_sec := by
  rcases reachable_inv h with ⟨u, hu⟩
  exact ⟨hu.rem_lb, hu.rem_ub⟩

/-- Claim C1 counterexample: start at time 0, tick at time 0.5.  The stored
fields are `elapsed_sec = 0`, `remaining_sec = 179`, `total_sec = 180`, so
`remaining_sec ≠ total_sec - elapsed_sec` in a reachable state. -/
theorem C1_counterexample :
    monoFrom 0 [Step.command 0 pStart, Step.tickAt (mkRat 1 2)] = true ∧
      (applyTrace initialServer
          [Step.command 0 pStart, Step.tickAt (mkRat 1 2)]).state.remaining_sec ≠
        (applyTrace initialServer
            [Step.command 0 pStart, Step.tickAt (mkRat 1 2)]).state.total_sec -
          (applyTrace initialServer
              [Step.command 0 pStart, Step.tickAt (mkRat 1 2)]).state.elapsed_sec := by
  decide

theorem C1_witness :
    Reachable initialServer ∧
      (initialServer.state.total_sec - initialServer.state.elapsed_sec - 1 ≤
          initialServer.state.remaining_sec ∧
        initialServer.state.remaining_sec ≤
          initialServer.state.total_sec - initialServer.state.elapsed_sec) :=
  ⟨⟨[], rfl, rfl⟩, C1_remaining_bounds initialServer ⟨[], rfl, rfl⟩⟩

/-- Claim C2 (corrected).  The spec states `over ⇔ remaining_sec < 0` for all
reachable states.  `over` is computed from the un-truncated remaining
(`remaining < 0` on floats), so `over = true` with `remaining_sec = 0` is
reachable (tick with `-1 < remaining < 0`); moreover `set_total` while
paused does not clear `over`.  The direction that does hold in every
reachable state: a negative stored `remaining_sec` forces `over`. -/
theorem C2_neg_remaining_over (σ : ServerState) (h : Reachable σ)
    (hneg : σ.state.remaining_sec < 0) : σ.state.over = true := by
  rcases reachable_inv h with ⟨u, hu⟩
  exact hu.over_of_neg hneg

/-- Claim C2 counterexample: start at time 0, tick at time 180.5.  The tick
stores `over = true` (remaining float is `-0.5 < 0`) but
`remaining_sec = int(-0.5) = 0`, refuting `over ⇔ remaining_sec < 0`. -/
theorem C2_counterexample :
    monoFrom 0 [Step.command 0 pStart, Step.tickAt (mkRat 361 2)] = true ∧
      (applyTrace initialServer
          [Step.command 0 pStart, Step.tickAt (mkRat 361 2)]).state.over = true ∧
      ¬((applyTrace initialServer
          [Step.command 0 pStart, Step.tickAt (mkRat 361 2)]).state.remaining_sec < 0) := by
  decide

theorem C2_witness :
    (applyTrace initialServer
        [Step.command 0 pStart, Step.tickAt 182]).state.remaining_sec < 0 ∧
      (applyTrace initialServer
          [Step.command 0 pStart, Step.tickAt 182]).state.over = true :=
  ⟨by decide,
   C2_neg_remaining_over _
     ⟨[Step.command 0 pStart, Step.tickAt 182], by decide, rfl⟩ (by decide)⟩

/-- Claim C7 (confirmed).  On a tick while running and not paused: the stored
`elapsed_sec` is the truncated anchored elapsed; every bell that is
enabled, not yet triggered, and whose `at_sec` is at most that value is
marked triggered (already-triggered bells are left alone, so each fires at
most once per run-cycle); the one emitted event carries the batch of their
counts in configuration (index) order. -/
theorem C7_tick_fires (σ : ServerState) (now : ℚ)
    (hrun : σ.state.running = true) (hpau : σ.state.paused = false) :
    (tick σ now).1.state.elapsed_sec =
        pyInt (σ.elapsedAtPause + (now - σ.startWall)) ∧
      (tick σ now).1.state.bells = σ.state.bells.map (fun b =>
        if b.enabled = true ∧ b.triggered = false ∧
            b.at_sec ≤ pyInt (σ.elapsedAtPause + (now - σ.startWall)) then
          { b with triggered := true }
        else b) ∧
      (tick σ now).2 = [Emit.stateEv (tick σ now).1.state
        (if ((σ.state.bells.filter (fun b =>
                decide (b.enabled = true ∧ b.triggered = false ∧
                  b.at_sec ≤ pyInt (σ.elapsedAtPause + (now - σ.startWall))))).map
              Bell.count).isEmpty then none
         else some ((σ.state.bells.filter (fun b =>
                decide (b.enabled = true ∧ b.triggered = false ∧
                  b.at_sec ≤ pyInt (σ.elapsedAtPause + (now - σ.startWall))))).map
              Bell.count))] := by
  rw [tick_run hrun hpau]
  dsimp only
  refine ⟨rfl, ?_, ?_⟩
  · rw [fireScan_fst]
  · rw [fireScan_snd]

/-- Scenario 6 set-up: move bell 1 to the same threshold as bell 0
(`at_sec = 60`), then start. -/
def pBell1 : Payload :=
  { action := some (.vStr "set_bell"), index := some (.vInt 1),
    minutes := some (.vInt 1), seconds := some (.vInt 0) }

def twinServer : ServerState :=
  applyTrace initialServer [Step.command 0 pBell1, Step.command 0 pStart]

theorem C7_witness :
    twinServer.state.running = true ∧ twinServer.state.paused = false ∧
      (tick twinServer 60).1.state.elapsed_sec = 60 ∧
      (tick twinServer 60).2 =
        [Emit.stateEv (tick twinServer 60).1.state (some [1, 2])] :=
  ⟨by decide, by decide, by decide,
   ((C7_tick_fires twinServer 60 (by decide) (by decide)).2.2).trans (by decide)⟩

/-- Claim C8 (confirmed).  Resuming a paused run anchors the wall clock at the
resume instant `t0` with frozen offset equal to the stored `elapsed_sec`;
every later tick (regardless of intervening ticks) stores
`elapsed_sec = old elapsed + ⌊t - t0⌋`, the whole seconds since the resume
instant — wall-clock time spent paused contributes nothing. -/
theorem C8_resume_elapsed (σ : ServerState) (t0 : ℚ) (ts : List ℚ) (t : ℚ)
    (hrun : σ.state.running = true) (hpau : σ.state.paused = true)
    (hE : 0 ≤ σ.state.elapsed_sec) (ht : t0 ≤ t) :
    (tick (applyTicks (applyStep σ (Step.command t0 pStart)) ts) t).1.state.elapsed_sec
      = σ.state.elapsed_sec + ⌊t - t0⌋ := by
  have h1 : applyStep σ (Step.command t0 pStart) =
      ⟨{ σ.state with paused := false }, t0, (σ.state.elapsed_sec : ℚ)⟩ := by
    show (match cmd σ t0 pStart with
      | .ok r => r.1
      | .error _ => σ) = _
    rw [cmd_pStart, cmdStart_resume hrun hpau]
  rw [h1]
  have h2 := applyTicks_fixed ts ⟨{ σ.state with paused := false }, t0,
    (σ.state.elapsed_sec : ℚ)⟩
  have h3 := @tick_run _ t (h2.1.trans hrun) (h2.2.1.trans rfl)
  rw [h3]
  dsimp only
  rw [h2.2.2.1, h2.2.2.2]
  have h4 : (0 : ℚ) ≤ (σ.state.elapsed_sec : ℚ) + (t - t0) := by
    have : (0 : ℚ) ≤ (σ.state.elapsed_sec : ℚ) := by exact_mod_cast hE
    linarith
  rw [pyInt_of_nonneg h4, Int.floor_int_add]

def pausedServer : ServerState :=
  applyTrace initialServer
    [Step.command 0 pStart, Step.tickAt 30, Step.command 30 pPause]

/-- Scenario 2 instance: pause at `elapsed_sec = 30`, resume 10 seconds
later at wall-clock 40, tick once at 41, then observe the tick at 50:
elapsed is 30 + 10 = 40, not 50. -/
theorem C8_witness :
    pausedServer.state.running = true ∧ pausedServer.state.paused = true ∧
      pausedServer.state.elapsed_sec = 30 ∧
      (tick (applyTicks (applyStep pausedServer (Step.command 40 pStart)) [41])
          50).1.state.elapsed_sec = 40 :=
  ⟨by decide, by decide, by decide,
   (C8_resume_elapsed pausedServer 40 [41] 50 (by decide) (by decide)
      (by decide) (by decide)).trans (by decide)⟩

/-- Claim C6 (confirmed).  A `set_total` command while running and not paused
is silently ignored: no field changes, no error is raised (the `int()`
conversions sit inside the rejected guard), and the standard full
broadcast still occurs. -/
theorem C6_set_total_rejected (σ : ServerState) (now : ℚ) (p : Payload)
    (hp : p.action = some (.vStr "set_total"))
    (hrun : σ.state.running = true) (hpau : σ.state.paused = false) :
    cmd σ now p = .ok (σ, [broadcastEv σ.state]) := by
  unfold cmd
  rw [hp, if_neg (by decide), if_neg (by decide), if_neg (by decide),
    if_pos rfl]
  unfold cmdSetTotal
  rw [if_neg]
  rintro (h | h)
  · rw [hrun] at h
    exact Bool.noConfusion h
  · rw [hpau] at h
    exact Bool.noConfusion h

def runningServer : ServerState :=
  applyStep initialServer (Step.command 0 pStart)

def pTotal5 : Payload :=
  { action := some (.vStr "set_total"), minutes := some (.vInt 5),
    seconds := some (.vInt 0) }

/-- Scenario 4 instance: `set_total(minutes=5)` while running leaves
`total_sec = 180` and still broadcasts. -/
theorem C6_witness :
    runningServer.state.running = true ∧
      runningServer.state.paused = false ∧
      runningServer.state.total_sec = 180 ∧
      cmd runningServer 10 pTotal5 =
        .ok (runningServer, [broadcastEv runningServer.state]) :=
  ⟨by decide, by decide, by decide,
   C6_set_total_rejected runningServer 10 pTotal5 rfl (by decide) (by decide)⟩

/-- Claim C9 (confirmed).  `manual_bell` with a count convertible to `c`
changes nothing in the timer state, emits exactly one event carrying the
full snapshot plus `fire_bells=[c]`, and skips the trailing broadcast. -/
theorem C9_manual_bell (σ : ServerState) (now : ℚ) (p : Payload) (c : Int)
    (hp : p.action = some (.vStr "manual_bell"))
    (hcv : pyToInt (p.count.getD (.vInt 1)) = some c) :
    cmd σ now p = .ok (σ, [Emit.stateEv σ.state (some [c])]) := by
  unfold cmd
  rw [hp, if_neg (by decide), if_neg (by decide), if_neg (by decide),
    if_neg (by decide), if_neg (by decide), if_pos rfl]
  unfold cmdManualBell
  rw [hcv]

def pManual2 : Payload :=
  { action := some (.vStr "manual_bell"), count := some (.vInt 2) }

/-- Scenario 5 instance: `manual_bell(count=2)` delivers exactly one
`fire_bells=[2]` event and leaves the state alone. -/
theorem C9_witness :
    cmd initialServer 0 pManual2 =
      .ok (initialServer, [Emit.stateEv initialState (some [2])]) :=
  C9_manual_bell initialServer 0 pManual2 2 rfl rfl

/-- Claim C10 (confirmed).  A `set_total` whose supplied minutes/seconds give
a non-positive total is a no-op even in the allowed (idle or paused)
configuration: the undocumented `total > 0` guard skips every mutation,
and the standard broadcast still occurs. -/
theorem C10_set_total_nonpositive (σ : ServerState) (now : ℚ) (p : Payload)
    (m s : Int) (hp : p.action = some (.vStr "set_total"))
    (hm : p.minutes = some (.vInt m)) (hs : p.seconds = some (.vInt s))
    (hidle : σ.state.running = false ∨ σ.state.paused = true)
    (htot : m * 60 + s ≤ 0) :
    cmd σ now p = .ok (σ, [broadcastEv σ.state]) := by
  unfold cmd
  rw [hp, if_neg (by decide), if_neg (by decide), if_neg (by decide),
    if_pos rfl]
  unfold cmdSetTotal
  rw [if_pos hidle, hm, hs]
  dsimp only [Option.getD, pyToInt]
  rw [if_neg (not_lt.mpr htot)]

def pTotal00 : Payload :=
  { action := some (.vStr "set_total"), minutes := some (.vInt 0),
    seconds := some (.vInt 0) }

theorem C10_witness :
    initialServer.state.running = false ∧
      cmd initialServer 0 pTotal00 =
        .ok (initialServer, [broadcastEv initialServer.state]) :=
  ⟨rfl, C10_set_total_nonpositive initialServer 0 pTotal00 0 0 rfl rfl rfl
    (Or.inl rfl) (by decide)⟩

/-- Claim C4 (corrected).  A `set_total` with supplied integer minutes `m ≥ 0`
and seconds `s ≥ 0` issued while idle or paused reconfigures the timer —
`total_sec = 60*m + s`, `elapsed_sec = 0`, `remaining_sec = total_sec`,
all `triggered` flags cleared, followed by the standard broadcast —
**provided** the computed total is positive; a non-positive total (e.g.
`m = s = 0`, allowed by the claim as stated) is silently ignored
(see C10). -/
theorem C4_set_total_applies (σ : ServerState) (now : ℚ) (p : Payload)
    (m s : Int) (hp : p.action = some (.vStr "set_total"))
    (hm : p.minutes = some (.vInt m)) (hs : p.seconds = some (.vInt s))
    (hidle : σ.state.running = false ∨ σ.state.paused = true)
    (_hm0 : 0 ≤ m) (_hs0 : 0 ≤ s) (htot : 0 < 60 * m + s) :
    (applyStep σ (Step.command now p)).state.total_sec = 60 * m + s ∧
      (applyStep σ (Step.command now p)).state.elapsed_sec = 0 ∧
      (applyStep σ (Step.command now p)).state.remaining_sec =
        (applyStep σ (Step.command now p)).state.total_sec ∧
      (∀ b ∈ (applyStep σ (Step.command now p)).state.bells,
        b.triggered = false) ∧
      cmd σ now p = .ok (applyStep σ (Step.command now p),
        [broadcastEv (applyStep σ (Step.command now p)).state]) := by
  have hcmd : cmd σ now p = .ok
      (⟨{ σ.state with
          total_sec := m * 60 + s, remaining_sec := m * 60 + s,
          elapsed_sec := 0,
          bells := σ.state.bells.map (fun b => { b with triggered := false }) },
        σ.startWall, 0⟩,
       [broadcastEv { σ.state with
          total_sec := m * 60 + s, remaining_sec := m * 60 + s,
          elapsed_sec := 0,
          bells := σ.state.bells.map (fun b => { b with triggered := false }) }]) := by
    unfold cmd
    rw [hp, if_neg (by decide), if_neg (by decide), if_neg (by decide),
      if_pos rfl]
    unfold cmdSetTotal
    rw [if_pos hidle, hm, hs]
    dsimp only [Option.getD, pyToInt]
    rw [if_pos (by omega)]
  have hstep : applyStep σ (Step.command now p) =
      ⟨{ σ.state with
          total_sec := m * 60 + s, remaining_sec := m * 60 + s,
          elapsed_sec := 0,
          bells := σ.state.bells.map (fun b => { b with triggered := false }) },
        σ.startWall, 0⟩ := by
    show (match cmd σ now p with
      | .ok r => r.1
      | .error _ => σ) = _
    rw [hcmd]
  rw [hstep]
  refine ⟨by dsimp only; omega, rfl, rfl, ?_, ?_⟩
  · intro b hb
    rcases List.mem_map.mp hb with ⟨c, _, rfl⟩
    rfl
  · rw [hcmd]

def pausedEarly : ServerState :=
  applyTrace initialServer
    [Step.command 0 pStart, Step.tickAt 7, Step.command 7 pPause]

/-- Instance: `set_total(minutes=5, seconds=0)` while paused reconfigures
to 300 seconds and clears the bells. -/
theorem C4_witness :
    pausedEarly.state.paused = true ∧
      (applyStep pausedEarly (Step.command 7 pTotal5)).state.total_sec =
        60 * 5 + 0 ∧
      (applyStep pausedEarly (Step.command 7 pTotal5)).state.elapsed_sec = 0 ∧
      (applyStep pausedEarly (Step.command 7 pTotal5)).state.remaining_sec =
        (applyStep pausedEarly (Step.command 7 pTotal5)).state.total_sec ∧
      (∀ b ∈ (applyStep pausedEarly (Step.command 7 pTotal5)).state.bells,
        b.triggered = false) := by
  have h := C4_set_total_applies pausedEarly 7 pTotal5 5 0 rfl rfl rfl
    (Or.inr (by decide)) (by decide) (by decide) (by decide)
  exact ⟨by decide, h.1, h.2.1, h.2.2.1, h.2.2.2.1⟩

/-- Claim C4 counterexample: from the idle initial state (precondition of the
claim satisfied, `m = 0 ≥ 0`, `s = 0 ≥ 0`), `set_total(0, 0)` leaves
`total_sec = 180`, not `60*0 + 0 = 0` — the claim as stated fails. -/
theorem C4_counterexample :
    initialServer.state.running = false ∧
      (applyStep initialServer (Step.command 0 pTotal00)).state.total_sec = 180 ∧
      (180 : Int) ≠ 60 * 0 + 0 := by
  decide

def pTotalAbsent : Payload := { action := some (.vStr "set_total") }

def pTotal30 : Payload :=
  { action := some (.vStr "set_total"), minutes := some (.vInt 3),
    seconds := some (.vInt 0) }

def pBellAbsent : Payload := { action := some (.vStr "set_bell") }

def pBell0000 : Payload :=
  { action := some (.vStr "set_bell"), index := some (.vInt 0),
    minutes := some (.vInt 0), seconds := some (.vInt 0) }

def pManualAbsent : Payload := { action := some (.vStr "manual_bell") }

def pTotalOops : Payload :=
  { action := some (.vStr "set_total"), minutes := some (.vStr "oops") }

def pTotalAbc : Payload :=
  { action := some (.vStr "set_total"), minutes := some (.vStr "abc") }

/-- Claim C3 (corrected).  The documented defaults are applied only when a
field is *absent* (`data.get(key, default)`); a present but non-numeric
field is passed to `int()`, which raises.  Absent fields behave exactly as
the documented defaults (minutes=3/seconds=0 for `set_total`,
index=0/minutes=0/seconds=0 for `set_bell`, count=1 for `manual_bell`) and
the handler completes normally; a non-numeric `minutes` on a `set_total`
accepted by the guard raises instead. -/
theorem C3_absent_defaults (σ : ServerState) (now : ℚ) :
    cmd σ now pTotalAbsent = cmd σ now pTotal30 ∧
      (∃ r, cmd σ now pTotalAbsent = .ok r) ∧
      cmd σ now pBellAbsent = cmd σ now pBell0000 ∧
      (∃ r, cmd σ now pBellAbsent = .ok r) ∧
      cmd σ now pManualAbsent = .ok (σ, [Emit.stateEv σ.state (some [1])]) ∧
      ((σ.state.running = false ∨ σ.state.paused = true) →
        cmd σ now pTotalOops = .error ()) := by
  refine ⟨rfl, ?_, rfl, ?_, rfl, ?_⟩
  · show (∃ r, cmdSetTotal σ pTotalAbsent = .ok r)
    unfold cmdSetTotal
    split_ifs with hg
    · exact ⟨_, rfl⟩
    · exact ⟨_, rfl⟩
  · show (∃ r, cmdSetBell σ pBellAbsent = .ok r)
    unfold cmdSetBell
    dsimp only [Option.getD, pyToInt, pBellAbsent]
    split_ifs with hr
    · exact ⟨_, rfl⟩
    · exact ⟨_, rfl⟩
  · intro hidle
    show cmdSetTotal σ pTotalOops = .error ()
    unfold cmdSetTotal
    rw [if_pos hidle]
    rfl

/-- Claim C3 counterexample: `set_total` with the non-numeric minutes field
`"abc"` in the idle initial state makes the handler raise `ValueError`
instead of substituting the default — the claim as stated fails. -/
theorem C3_counterexample : cmd initialServer 0 pTotalAbc = .error () := by
  decide

theorem C3_witness : cmd initialServer 0 pTotalOops = .error () :=
  (C3_absent_defaults initialServer 0).2.2.2.2.2 (Or.inl rfl)

/-- Claim C5 (corrected).  In every reachable state a triggered bell has
`at_sec ≤ elapsed_sec` (the flag is false until the stored elapsed reaches
the threshold); and the flag, once true, persists under every tick and
every command **except** `reset`, `set_total` — and, contrary to the claim
as stated, also `set_bell`, which force-clears the addressed bell's
flag. -/
theorem C5_triggered :
    (∀ σ : ServerState, Reachable σ → ∀ b ∈ σ.state.bells,
        b.triggered = true → b.at_sec ≤ σ.state.elapsed_sec) ∧
      (∀ (σ : ServerState) (now : ℚ) (p : Payload),
        p.action ≠ some (.vStr "reset") →
        p.action ≠ some (.vStr "set_total") →
        p.action ≠ some (.vStr "set_bell") →
        (applyStep σ (Step.command now p)).state.bells = σ.state.bells) ∧
      (∀ (σ : ServerState) (now : ℚ) (i : Nat) (b : Bell),
        σ.state.bells[i]? = some b → b.triggered = true →
        ∃ c, (tick σ now).1.state.bells[i]? = some c ∧ c.triggered = true) := by
  refine ⟨?_, ?_, ?_⟩
  · intro σ h b hb htrig
    rcases reachable_inv h with ⟨u, hu⟩
    exact hu.bell_le b hb htrig
  · intro σ now p hres htot hbell
    show (match cmd σ now p with
      | .ok r => r.1
      | .error _ => σ).state.bells = σ.state.bells
    rcases hc : cmd σ now p with e | r
    · rfl
    · unfold cmd at hc
      rw [if_neg hres, if_neg htot, if_neg hbell] at hc
      split_ifs at hc with h1 h2 h3
      · injection hc with hc
        subst hc
        unfold cmdStart
        split_ifs <;> rfl
      · injection hc with hc
        subst hc
        unfold cmdPause
        split_ifs <;> rfl
      · show r.1.state.bells = σ.state.bells
        rw [cmdManualBell_ok hc]
      · injection hc with hc
        subst hc
        rfl
  · intro σ now i b hb htrig
    by_cases hg : σ.state.running = true ∧ σ.state.paused = false
    · rw [tick_run hg.1 hg.2]
      dsimp only
      rw [fireScan_fst, List.getElem?_map, hb]
      refine ⟨_, rfl, ?_⟩
      dsimp only
      split_ifs with hcond
      · rfl
      · exact htrig
    · rw [tick_stuck hg]
      exact ⟨b, hb, htrig⟩

def pBell0 : Payload :=
  { action := some (.vStr "set_bell"), index := some (.vInt 0) }

def firedServer : ServerState :=
  applyTrace initialServer [Step.command 0 pStart, Step.tickAt 60]

/-- Claim C5 counterexample: after bell 0 fires (elapsed 60), a `set_bell`
command addressing index 0 — neither a `reset` nor a `set_total` — clears
its `triggered` flag, refuting "remains true until the next reset or
set_total". -/
theorem C5_counterexample :
    monoFrom 0 [Step.command 0 pStart, Step.tickAt 60] = true ∧
      (firedServer.state.bells[0]?).map Bell.triggered = some true ∧
      pBell0.action ≠ some (.vStr "reset") ∧
      pBell0.action ≠ some (.vStr "set_total") ∧
      ((applyStep firedServer (Step.command 60 pBell0)).state.bells[0]?).map
        Bell.triggered = some false := by
  decide

theorem C5_witness :
    (Bell.mk true 60 1 true).at_sec ≤ firedServer.state.elapsed_sec ∧
      (applyStep firedServer (Step.command 60 pPause)).state.bells =
        firedServer.state.bells ∧
      (∃ c, (tick firedServer 61).1.state.bells[0]? = some c ∧
        c.triggered = true) :=
  ⟨C5_triggered.1 firedServer
      ⟨[Step.command 0 pStart, Step.tickAt 60], by decide, rfl⟩
      (Bell.mk true 60 1 true) (by decide) rfl,
   C5_triggered.2.1 firedServer 60 pPause (by decide) (by decide) (by decide),
   C5_triggered.2.2 firedServer 61 0 (Bell.mk true 60 1 true) (by decide) rfl⟩
